import Mathlib

/-!
Shallow embedding of the typestate builder synthesis core of the `bon`
proc-macro crate. The embedding mirrors two source files:

* `bon-macros/src/builder/builder_gen/setter_methods.rs` — per-field setter
  generation: into-conversion eligibility, the per-field type alias and the
  constrained impl block, the optional-field setter pair, and the setter
  method bodies;
* `bon-macros/src/builder/item_impl.rs` — the impl-block adaptation pipeline:
  partition of marked methods, trait and defaultness rejections, reassembly.

The generated Rust token streams are modelled structurally: a generated item
becomes a Lean record whose fields record exactly the information the token
stream carries. Fallible steps become `Except`. Collaborator code that this
slice calls but that lives outside the two files (field-record accessors,
normalization visitors, per-method builder generation) is modelled from the
specification and marked as such in doc comments.
-/

namespace Bon

/-- A segment of a `syn` path: its identifier, and whether any generic
arguments are applied at it (`segment.arguments.is_empty()` negated). -/
structure PathSegment where
  ident : String
  hasArguments : Bool
deriving DecidableEq, Repr

/-- A `syn::Path`: leading-colon flag and the segment list. -/
structure Path where
  leadingColon : Bool
  segments : List PathSegment
deriving DecidableEq, Repr

/-- A `syn::TypePath`: the optional qualified-self prefix is modelled by a
flag, since the analyzer only tests `qself.is_some()`. -/
structure TypePath where
  qself : Bool
  path : Path
deriving DecidableEq, Repr

/-- A `syn::Type` as far as the analyzer observes it: either a path type or
some other type form, which the path accessor rejects. -/
inductive SynType where
  | path (tp : TypePath)
  | other (tag : String)
deriving DecidableEq, Repr

/-- Modelled from the spec: the `prox` helper `Type::as_path` used by the
analyzer (not under src/) extracts the type-path form of a type, yielding
nothing for any other type form ("a simple named type reference"). -/
def SynType.asPath : SynType → Option TypePath
  | .path tp => some tp
  | .other _ => none

/-- `syn::Path::get_ident`: the single identifier of a path that has no
leading colon, exactly one segment, and no arguments on it. -/
def Path.getIdent (p : Path) : Option String :=
  match p.segments with
  | [s] => if !p.leadingColon && !s.hasArguments then some s.ident else none
  | _ => none

/-- Modelled from the spec: the `prox` helper `ends_with_segment` (not under
src/) tests the trailing name component of a path, so that primitives named
via `std::primitive::u32` are still recognized. -/
def Path.endsWithSegment (p : Path) (name : String) : Bool :=
  match p.segments.getLast? with
  | some s => s.ident == name
  | none => false

/-- One generic parameter of the enclosing entity, as the analyzer observes
it: a type parameter with its identifier, or a lifetime/const parameter
(whose `as_type_param()` is `None`). -/
inductive GenericParam where
  | typeParam (ident : String)
  | lifetime (ident : String)
  | constParam (ident : String)
deriving DecidableEq, Repr

/-- `param.as_type_param()?.ident` collected over the generics list; the
source collects these into a `BTreeSet`, which only its membership test
observes, so a list with `contains` is an equivalent model. -/
def typeParamIdents (params : List GenericParam) : List String :=
  params.filterMap fun p =>
    match p with
    | .typeParam id => some id
    | _ => none

/-- The fixed list of primitive type names excluded from into-conversion. -/
def primitiveTypes : List String :=
  ["bool", "char", "f32", "f64", "i8", "i16", "i32", "i64", "i128", "isize",
   "u8", "u16", "u32", "u64", "u128", "usize"]

/-- A state marker for one field of the builder state tuple. Modelled from
the spec for the marker types themselves (they live outside the two source
files): `Unset` carries no data, `Set(T)` carries the eventually-stored
value type. -/
inductive StateMarker where
  | unset
  | set (t : SynType)
deriving DecidableEq, Repr

/-- One field (constructible input) of the entity, as `setter_methods.rs`
observes it. `optionalInner` models `Field::as_optional` (declared outside
src/): per the spec, optionality is structural (`Option<T>`) or explicitly
annotated, and is already decoded in the field record. `intoOverride` is
`field.params.into` with its span erased (only the value is observed beyond
diagnostics). -/
structure Field where
  ident : String
  stateAssocTypeIdent : String
  ty : SynType
  optionalInner : Option SynType
  intoOverride : Option Bool
  origin : String
  docs : List String
deriving DecidableEq, Repr

/-- Modelled from the spec: `Field::set_state_type` (in `field.rs`, not under
src/) is the `Set` marker carrying the field's declared (post-conversion)
type. -/
def Field.setStateType (f : Field) : StateMarker := .set f.ty

/-- Modelled from the spec: `Field::unset_state_type` (in `field.rs`, not
under src/) is the `Unset` marker, which carries no data. -/
def Field.unsetStateType (_f : Field) : StateMarker := .unset

/-- The builder-generation context, as far as `setter_methods.rs` reads it. -/
structure BuilderGenCtx where
  builderIdent : String
  builderStateTraitIdent : String
  builderPrivateImplIdent : String
  genericsParams : List GenericParam
  fields : List Field
  vis : String
  hasReceiver : Bool
  hasPhantomField : Bool
deriving Repr

/-- Diagnostics issued by this slice of the generator. -/
inductive Diag where
  | redundantInto (fieldOrigin : String) (alreadyQualifies : Bool)
  | traitImplUnsupported (traitPath : String)
  | noBuilderFns
  | defaultFnsUnsupported
deriving DecidableEq, Repr

/-- The rendered message of the redundant-override diagnostic, following the
format string in the source (including its doubled word). -/
def Diag.message : Diag → String
  | .redundantInto origin q =>
      "This attribute is redundant and can be removed. By default the " ++
      "the type of this " ++ origin ++ " already " ++
      (if q then "qualifies" else "doesn\x27t qualify") ++ " for `impl Into`."
  | .traitImplUnsupported _ => "Impls of traits are not supported yet"
  | .noBuilderFns =>
      "There are no #[builder] functions in the impl block, so there is no " ++
      "need for a #[bon] attribute on the impl block"
  | .defaultFnsUnsupported => "Default functions are not supported yet"

/-- `BuilderGenCtx::type_qualifies_for_into`: the default eligibility rule
deciding whether a setter accepts `impl Into<T>` instead of exactly `T`. -/
def typeQualifiesForInto (genericsParams : List GenericParam) (ty : SynType) : Bool :=
  match ty.asPath with
  | none => false
  | some path =>
    if path.qself then false
    else
      let hasGenericParams := path.path.segments.any fun s => s.hasArguments
      if hasGenericParams then false
      else
        let bareTypeParam :=
          match path.path.getIdent with
          | some id => (typeParamIdents genericsParams).contains id
          | none => false
        if bareTypeParam then false
        else primitiveTypes.all fun prim => !(path.path.endsWithSegment prim)

/-- `BuilderGenCtx::field_qualifies_for_into`: resolves the per-field
into-conversion decision, letting an explicit user override win when it
changes the default and rejecting it as redundant when it does not. -/
def fieldQualifiesForInto (ctx : BuilderGenCtx) (field : Field) (ty : SynType) :
    Except Diag Bool :=
  match field.intoOverride with
  | none => .ok (typeQualifiesForInto ctx.genericsParams ty)
  | some overrideValue =>
    let defaultValue := typeQualifiesForInto ctx.genericsParams ty
    if defaultValue ≠ overrideValue then .ok overrideValue
    else .error (.redundantInto field.origin defaultValue)

/-- The type of a setter's single `value` parameter, as it appears in the
generated signature. -/
inductive ParamType where
  | plain (t : SynType)
  | implInto (t : SynType)
  | optionOf (inner : ParamType)
deriving DecidableEq, Repr

/-- The expression the generated setter wraps in `bon::private::Set::new`. -/
inductive ValueExpr where
  | value
  | valueInto
  | someOf (e : ValueExpr)
  | mapIntoValue
deriving DecidableEq, Repr

/-- One slot initializer in the builder literal a setter body constructs:
either the fresh `Set::new(...)` expression for the target field, or a move
of the corresponding slot out of `self.__private_impl`. -/
inductive SlotInit where
  | newExpr (e : ValueExpr)
  | movedField (ident : String)
  | movedPhantom
  | movedReceiver
deriving DecidableEq, Repr

/-- The `FieldSetterMethod` record the synthesizer fills per method. -/
structure FieldSetterMethod where
  methodName : String
  paramType : ParamType
  fieldInit : ValueExpr
  overwriteDocs : Option String
deriving DecidableEq, Repr

/-- A fully rendered setter method. -/
structure SetterMethodOut where
  name : String
  paramType : ParamType
  fieldInit : ValueExpr
  docs : List String
  slots : List SlotInit
deriving DecidableEq, Repr

/-- `FieldSettersCtx::new`: the normalized field name, with one leading
underscore removed from the identifier. -/
def normIdent (s : String) : String :=
  if s.startsWith "_" then s.drop 1 else s

/-- The auto-generated documentation of the `maybe_` setter, which
cross-references the primary setter. -/
def maybeSetterDoc (n : String) : String :=
  "Same as [`Self::" ++ n ++ "`], but accepts an `Option` as input. " ++
  "See that method\x27s documentation for more details."

/-- `FieldSettersCtx::setter_method`: renders one setter method; every slot
other than the target field's is moved out of the incoming builder's private
state, the phantom slot and receiver slot included when present. -/
def setterMethod (ctx : BuilderGenCtx) (field : Field) (m : FieldSetterMethod) :
    SetterMethodOut :=
  let docs :=
    match m.overwriteDocs with
    | some d => [d]
    | none => field.docs
  let slots :=
    (if ctx.hasPhantomField then [SlotInit.movedPhantom] else []) ++
    (if ctx.hasReceiver then [SlotInit.movedReceiver] else []) ++
    (ctx.fields.map fun otherField =>
      if otherField.ident = field.ident then SlotInit.newExpr m.fieldInit
      else SlotInit.movedField otherField.ident)
  { name := m.methodName
    paramType := m.paramType
    fieldInit := m.fieldInit
    docs := docs
    slots := slots }

/-- `FieldSettersCtx::setters_for_optional_field`: the two setters of an
optional field; eligibility is evaluated against the inner type. -/
def settersForOptionalField (ctx : BuilderGenCtx) (field : Field)
    (innerType : SynType) : Except Diag (List SetterMethodOut) :=
  match fieldQualifiesForInto ctx field innerType with
  | .error e => .error e
  | .ok qualifiedForInto =>
    let (paramTy, convCall, mapConvCall) :=
      if qualifiedForInto then
        (ParamType.implInto innerType, ValueExpr.valueInto, ValueExpr.mapIntoValue)
      else
        (ParamType.plain innerType, ValueExpr.value, ValueExpr.value)
    let n := normIdent field.ident
    let methods : List FieldSetterMethod :=
      [ { methodName := "maybe_" ++ n
          paramType := ParamType.optionOf paramTy
          fieldInit := mapConvCall
          overwriteDocs := some (maybeSetterDoc n) },
        { methodName := n
          paramType := paramTy
          fieldInit := ValueExpr.someOf convCall
          overwriteDocs := none } ]
    .ok (methods.map (setterMethod ctx field))

/-- `FieldSettersCtx::setter_methods`: dispatches between the optional-field
pair and the single required-field setter. -/
def setterMethods (ctx : BuilderGenCtx) (field : Field) :
    Except Diag (List SetterMethodOut) :=
  match field.optionalInner with
  | some innerType => settersForOptionalField ctx field innerType
  | none =>
    match fieldQualifiesForInto ctx field field.ty with
    | .error e => .error e
    | .ok qualifiedForInto =>
      let (paramTy, fieldInit) :=
        if qualifiedForInto then (ParamType.implInto field.ty, ValueExpr.valueInto)
        else (ParamType.plain field.ty, ValueExpr.value)
      .ok [setterMethod ctx field
        { methodName := normIdent field.ident
          paramType := paramTy
          fieldInit := fieldInit
          overwriteDocs := none }]

/-- One entry of the state tuple written in the output type alias body. -/
inductive StateTupleEntry where
  | assoc (assocIdent : String)
  | concrete (m : StateMarker)
deriving DecidableEq, Repr

/-- The generated `__{Builder}Set{Field}` type alias. -/
structure OutputAlias where
  ident : String
  stateParamDecl : Option String
  stateArg : Option String
  bodyStateTuple : List StateTupleEntry
deriving DecidableEq, Repr

/-- The full per-field output of `setter_methods_impls_for_field`: the type
alias plus the impl block whose generic state is constrained at the target
field's associated type and whose items are the setter methods. -/
structure SetterImplsOutput where
  outputAlias : OutputAlias
  implConstraintAssoc : String
  implConstraintEq : StateMarker
  methods : List SetterMethodOut
deriving DecidableEq, Repr

/-- `BuilderGenCtx::setter_methods_impls_for_field`: assembles the per-field
type alias and the constrained impl block holding the setters. -/
def setterMethodsImplsForField (ctx : BuilderGenCtx) (field : Field) :
    Except Diag SetterImplsOutput :=
  let outputFieldsStates := ctx.fields.map fun otherField =>
    if otherField.ident = field.ident then
      StateTupleEntry.concrete field.setStateType
    else
      StateTupleEntry.assoc otherField.stateAssocTypeIdent
  let aliasIdent := "__" ++ ctx.builderIdent ++ "Set" ++ field.stateAssocTypeIdent
  let statePair :=
    if ctx.fields.length > 1 then
      some ("__State: " ++ ctx.builderStateTraitIdent, "__State")
    else none
  match setterMethods ctx field with
  | .error e => .error e
  | .ok methods =>
    .ok
      { outputAlias :=
          { ident := aliasIdent
            stateParamDecl := statePair.map Prod.fst
            stateArg := statePair.map Prod.snd
            bodyStateTuple := outputFieldsStates }
        implConstraintAssoc := field.stateAssocTypeIdent
        implConstraintEq := field.unsetStateType
        methods := methods }

/-! ### Concrete example inputs -/

/-- The type `Vec<u32>`: a single path segment with generic arguments. -/
def tyVecU32 : SynType := .path ⟨false, ⟨false, [⟨"Vec", true⟩]⟩⟩

/-- The type `u32`: a bare primitive path. -/
def tyU32 : SynType := .path ⟨false, ⟨false, [⟨"u32", false⟩]⟩⟩

/-- The type `T`: a bare single-identifier path. -/
def tyBareT : SynType := .path ⟨false, ⟨false, [⟨"T", false⟩]⟩⟩

/-- The type `String`. -/
def tyString : SynType := .path ⟨false, ⟨false, [⟨"String", false⟩]⟩⟩

/-! ### Helper lemmas -/

theorem all_not_endsWithSegment_iff (p : Path) :
    ((primitiveTypes.all fun prim => !(p.endsWithSegment prim)) = true) ↔
      ∀ s, p.segments.getLast? = some s → s.ident ∉ primitiveTypes := by
  unfold Path.endsWithSegment
  cases h : p.segments.getLast? with
  | none => simp
  | some s =>
    simp only [List.all_eq_true, Bool.not_eq_true', beq_eq_false_iff_ne, ne_eq,
      Option.some.injEq]
    constructor
    · intro hall s2 hs2
      subst hs2
      intro hmem
      exact hall _ hmem rfl
    · intro hnot prim hmem heq
      exact hnot s rfl (heq ▸ hmem)

theorem nodup_ident_eq_iff {fields : List Field}
    (hnd : (fields.map Field.ident).Nodup)
    {i j : ℕ} (hi : i < fields.length) (hj : j < fields.length) :
    (fields.get ⟨j, hj⟩).ident = (fields.get ⟨i, hi⟩).ident ↔ j = i := by
  constructor
  · intro h
    have hmap : (fields.map Field.ident).get ⟨j, by simpa using hj⟩ =
        (fields.map Field.ident).get ⟨i, by simpa using hi⟩ := by
      simpa [List.get_map] using h
    have hfin := (List.Nodup.get_inj_iff hnd).mp hmap
    exact congrArg Fin.val hfin
  · rintro rfl
    rfl

/-! ### Claims C2 and C3: the into-conversion analyzer -/

/-- **C2.** The default into-conversion eligibility decision returns `true`
iff the type is a simple named path (no qualified-self projection), no path
segment has generic arguments, the path is not a bare single-identifier
reference to one of the entity's own generic type parameters, and the
trailing segment is not a primitive type name; in particular `Vec<u32>`,
`u32` and a bare type parameter `T` are not eligible while `String` is. -/
theorem c2_into_default_eligibility :
    (∀ (gp : List GenericParam) (ty : SynType),
      typeQualifiesForInto gp ty = true ↔
        ∃ tp, ty.asPath = some tp ∧ tp.qself = false ∧
          (∀ s ∈ tp.path.segments, s.hasArguments = false) ∧
          (∀ id, tp.path.getIdent = some id → id ∉ typeParamIdents gp) ∧
          (∀ s, tp.path.segments.getLast? = some s → s.ident ∉ primitiveTypes)) ∧
    typeQualifiesForInto [.typeParam "T"] tyVecU32 = false ∧
    typeQualifiesForInto [.typeParam "T"] tyU32 = false ∧
    typeQualifiesForInto [.typeParam "T"] tyBareT = false ∧
    typeQualifiesForInto [.typeParam "T"] tyString = true := by
  refine ⟨?_, by decide, by decide, by decide, by decide⟩
  intro gp ty
  cases ty with
  | other tag => simp [typeQualifiesForInto, SynType.asPath]
  | path tp =>
    obtain ⟨q, p⟩ := tp
    cases q with
    | true => simp [typeQualifiesForInto, SynType.asPath]
    | false =>
      simp only [typeQualifiesForInto, SynType.asPath, Option.some.injEq]
      by_cases hany : (p.segments.any fun s => s.hasArguments) = true
      · obtain ⟨s, hsmem, hsarg⟩ := List.any_eq_true.mp hany
        simp only [hany, if_true, if_false, Bool.false_eq_true, false_iff]
        rintro ⟨tp, htp, -, hsegs, -, -⟩
        rw [← htp] at hsegs
        exact absurd (hsegs s hsmem) (by simp [hsarg])
      · have hany' : (p.segments.any fun s => s.hasArguments) = false :=
          Bool.not_eq_true _ ▸ eq_false_of_ne_true hany
        cases hid : p.getIdent with
        | some id =>
          by_cases hmem : id ∈ typeParamIdents gp
          · have hcont : (typeParamIdents gp).contains id = true :=
              List.elem_iff.mpr hmem
            simp only [hany', hid, hcont, Bool.false_eq_true, if_false, if_true,
              false_iff]
            rintro ⟨tp, htp, -, -, hident, -⟩
            rw [← htp] at hident
            exact hident id hid hmem
          · have hcont : (typeParamIdents gp).contains id = false := by
              rw [← Bool.not_eq_true]
              intro hc
              exact hmem (List.elem_iff.mp hc)
            simp only [hany', hid, hcont, Bool.false_eq_true, if_false]
            rw [all_not_endsWithSegment_iff]
            constructor
            · intro hlast
              refine ⟨⟨false, p⟩, rfl, rfl, ?_, ?_, hlast⟩
              · intro s hs
                by_contra harg
                exact hany (List.any_eq_true.mpr ⟨s, hs, by simpa using harg⟩)
              · intro id2 hid2
                rw [hid] at hid2
                cases hid2
                exact hmem
            · rintro ⟨tp, htp, -, -, -, hlast⟩
              rw [← htp] at hlast
              exact hlast
        | none =>
          simp only [hany', hid, Bool.false_eq_true, if_false]
          rw [all_not_endsWithSegment_iff]
          constructor
          · intro hlast
            refine ⟨⟨false, p⟩, rfl, rfl, ?_, ?_, hlast⟩
            · intro s hs
              by_contra harg
              exact hany (List.any_eq_true.mpr ⟨s, hs, by simpa using harg⟩)
            · intro id2 hid2
              rw [hid] at hid2
              cases hid2
          · rintro ⟨tp, htp, -, -, -, hlast⟩
            rw [← htp] at hlast
            exact hlast

/-- **C3.** Into-override resolution: with no override, the default rule's
answer is returned; an override that differs from the default wins silently;
an override equal to the default fails with the redundant-configuration
diagnostic carrying the field's origin and whether the type already
qualifies. -/
theorem c3_into_override_resolution (ctx : BuilderGenCtx) (field : Field)
    (ty : SynType) :
    (field.intoOverride = none →
      fieldQualifiesForInto ctx field ty =
        .ok (typeQualifiesForInto ctx.genericsParams ty)) ∧
    (∀ b, field.intoOverride = some b →
      b ≠ typeQualifiesForInto ctx.genericsParams ty →
      fieldQualifiesForInto ctx field ty = .ok b) ∧
    (∀ b, field.intoOverride = some b →
      b = typeQualifiesForInto ctx.genericsParams ty →
      fieldQualifiesForInto ctx field ty =
        .error (.redundantInto field.origin
          (typeQualifiesForInto ctx.genericsParams ty))) := by
  refine ⟨?_, ?_, ?_⟩
  · intro h
    simp [fieldQualifiesForInto, h]
  · intro b hb hne
    simp [fieldQualifiesForInto, hb, Ne.symm hne]
  · intro b hb heq
    subst heq
    simp [fieldQualifiesForInto, hb]

/-- Witness for C3 at a concrete field of type `String` carrying the
redundant override `into = true`. -/
theorem c3_witness :
    (⟨"name", "Name", tyString, none, some true, "function argument", []⟩ :
        Field).intoOverride = some true ∧
    fieldQualifiesForInto
      ⟨"B", "BState", "BImpl", [], [], "pub", false, false⟩
      ⟨"name", "Name", tyString, none, some true, "function argument", []⟩
      tyString =
      .error (.redundantInto "function argument" true) :=
  ⟨rfl, by
    have h := (c3_into_override_resolution
      ⟨"B", "BState", "BImpl", [], [], "pub", false, false⟩
      ⟨"name", "Name", tyString, none, some true, "function argument", []⟩
      tyString).2.2 true rfl (by decide)
    simpa using h⟩

/-! ### Claims C1 and C9: the per-field alias and constrained impl block -/

/-- **C1.** The generated impl block for field `i` constrains the incoming
state at exactly field `i`'s associated type, requiring it to be the unset
marker, and the output state tuple equals the incoming generic state tuple
at every position except `i`, which becomes the `Set` marker carrying the
field's declared type. -/
theorem c1_setter_state_and_constraint (ctx : BuilderGenCtx) (field : Field)
    (i : ℕ) (hi : ctx.fields[i]? = some field)
    (hnd : (ctx.fields.map Field.ident).Nodup)
    (out : SetterImplsOutput)
    (hok : setterMethodsImplsForField ctx field = .ok out) :
    out.implConstraintAssoc = field.stateAssocTypeIdent ∧
    out.implConstraintEq = StateMarker.unset ∧
    out.outputAlias.bodyStateTuple.length = ctx.fields.length ∧
    ∀ j (hj : j < ctx.fields.length),
      out.outputAlias.bodyStateTuple[j]? =
        some (if j = i then StateTupleEntry.concrete (StateMarker.set field.ty)
              else StateTupleEntry.assoc
                ((ctx.fields.get ⟨j, hj⟩).stateAssocTypeIdent)) := by
  obtain ⟨hilen, hfi⟩ := List.getElem?_eq_some.mp hi
  unfold setterMethodsImplsForField at hok
  cases hms : setterMethods ctx field with
  | error e => rw [hms] at hok; cases hok
  | ok ms =>
    rw [hms] at hok
    injection hok with h
    subst h
    refine ⟨rfl, rfl, by simp, ?_⟩
    intro j hj
    simp only [List.getElem?_map, List.getElem?_eq_getElem hj,
      Option.map_some', Option.some.injEq]
    by_cases hji : j = i
    · subst hji
      have hident : ctx.fields[j].ident = field.ident := by rw [hfi]
      simp [hident, Field.setStateType]
    · have hident : ¬(ctx.fields[j].ident = field.ident) := by
        rw [← hfi]
        intro heq
        exact hji ((nodup_ident_eq_iff hnd hilen hj).mp
          (by simpa [List.get_eq_getElem] using heq))
      simp [hident, hji, List.get_eq_getElem]

/-- **C9.** The per-field alias takes an extra `__State` generic parameter
iff the entity has two or more fields; with exactly one field it takes no
current-state parameter at all. -/
theorem c9_alias_state_param (ctx : BuilderGenCtx) (field : Field)
    (out : SetterImplsOutput)
    (hok : setterMethodsImplsForField ctx field = .ok out) :
    (out.outputAlias.stateParamDecl.isSome = true ↔ 2 ≤ ctx.fields.length) ∧
    (ctx.fields.length = 1 →
      out.outputAlias.stateParamDecl = none ∧
      out.outputAlias.stateArg = none) := by
  unfold setterMethodsImplsForField at hok
  cases hms : setterMethods ctx field with
  | error e => rw [hms] at hok; cases hok
  | ok ms =>
    rw [hms] at hok
    injection hok with h
    subst h
    by_cases hlen : ctx.fields.length > 1
    · refine ⟨by simp [hlen]; omega, ?_⟩
      intro h1
      omega
    · refine ⟨by simp [hlen]; omega, ?_⟩
      intro h1
      simp [hlen]

/-! ### Concrete entity used by the witnesses -/

/-- A concrete required field `name: String`. -/
def wF1 : Field := ⟨"name", "Name", tyString, none, none, "struct field", ["field docs"]⟩

/-- A concrete required field `age: u32`. -/
def wF2 : Field := ⟨"age", "Age", tyU32, none, none, "struct field", []⟩

/-- A concrete two-field builder context. -/
def wCtx : BuilderGenCtx :=
  ⟨"FooBuilder", "FooBuilderState", "FooBuilderPrivateImpl", [], [wF1, wF2],
   "pub", false, true⟩

/-- A concrete one-field builder context. -/
def wCtxOne : BuilderGenCtx :=
  ⟨"BarBuilder", "BarBuilderState", "BarBuilderPrivateImpl", [], [wF1],
   "pub", false, false⟩

/-- The per-field output of the two-field context at its first field. -/
def wOut : SetterImplsOutput :=
  match setterMethodsImplsForField wCtx wF1 with
  | .ok out => out
  | .error _ => ⟨⟨"", none, none, []⟩, "", .unset, []⟩

/-- The per-field output of the one-field context at its only field. -/
def wOutOne : SetterImplsOutput :=
  match setterMethodsImplsForField wCtxOne wF1 with
  | .ok out => out
  | .error _ => ⟨⟨"", none, none, []⟩, "", .unset, []⟩

/-- Witness for C1 at the concrete two-field context. -/
theorem c1_witness :
    wOut.implConstraintAssoc = wF1.stateAssocTypeIdent ∧
    wOut.implConstraintEq = StateMarker.unset ∧
    wOut.outputAlias.bodyStateTuple[0]? =
      some (StateTupleEntry.concrete (StateMarker.set wF1.ty)) ∧
    wOut.outputAlias.bodyStateTuple[1]? =
      some (StateTupleEntry.assoc "Age") := by
  have h := c1_setter_state_and_constraint wCtx wF1 0 (by decide) (by decide)
    wOut rfl
  refine ⟨h.1, h.2.1, ?_, ?_⟩
  · simpa using h.2.2.2 0 (by decide)
  · simpa [wCtx, wF2] using h.2.2.2 1 (by decide)

/-- Witness for C9 at the concrete one-field context. -/
theorem c9_witness :
    wOutOne.outputAlias.stateParamDecl = none ∧
    wOutOne.outputAlias.stateArg = none := by
  have h := c9_alias_state_param wCtxOne wF1 wOutOne rfl
  exact h.2 (by decide)

/-! ### Claims C4, C5 and C10: the synthesized setter methods -/

theorem setterMethods_mem_setterMethod (ctx : BuilderGenCtx) (field : Field)
    (ms : List SetterMethodOut) (m : SetterMethodOut)
    (hok : setterMethods ctx field = .ok ms) (hm : m ∈ ms) :
    ∃ spec, m = setterMethod ctx field spec := by
  cases hopt : field.optionalInner with
  | some inner =>
    have hok2 : settersForOptionalField ctx field inner = .ok ms := by
      rw [← hok]
      unfold setterMethods
      rw [hopt]
    unfold settersForOptionalField at hok2
    cases hq : fieldQualifiesForInto ctx field inner with
    | error e => rw [hq] at hok2; cases hok2
    | ok q =>
      rw [hq] at hok2
      cases q with
      | true =>
        injection hok2 with h
        subst h
        obtain ⟨spec, -, hspec⟩ := List.mem_map.mp hm
        exact ⟨spec, hspec.symm⟩
      | false =>
        injection hok2 with h
        subst h
        obtain ⟨spec, -, hspec⟩ := List.mem_map.mp hm
        exact ⟨spec, hspec.symm⟩
  | none =>
    unfold setterMethods at hok
    rw [hopt] at hok
    cases hq : fieldQualifiesForInto ctx field field.ty with
    | error e => rw [hq] at hok; cases hok
    | ok q =>
      rw [hq] at hok
      cases q with
      | true =>
        injection hok with h
        subst h
        rw [List.mem_singleton] at hm
        exact ⟨_, hm⟩
      | false =>
        injection hok with h
        subst h
        rw [List.mem_singleton] at hm
        exact ⟨_, hm⟩

/-- **C4.** An optional field yields exactly two setters: the primary one
keeps the field's normalized name, takes the inner type (possibly through
`impl Into`), never an `Option`, always stores a `Some`, and keeps the
field's docs; the secondary one is named `maybe_<name>`, takes an `Option`
of the inner type, and carries the auto-generated cross-referencing docs. -/
theorem c4_optional_field_setter_pair (ctx : BuilderGenCtx) (field : Field)
    (innerType : SynType) (ms : List SetterMethodOut)
    (hopt : field.optionalInner = some innerType)
    (hok : setterMethods ctx field = .ok ms) :
    ms.length = 2 ∧
    ∃ mMaybe mPrimary, ms = [mMaybe, mPrimary] ∧
      mPrimary.name = normIdent field.ident ∧
      (mPrimary.paramType = ParamType.plain innerType ∨
        mPrimary.paramType = ParamType.implInto innerType) ∧
      (∀ pt, mPrimary.paramType ≠ ParamType.optionOf pt) ∧
      (∃ v, mPrimary.fieldInit = ValueExpr.someOf v) ∧
      mPrimary.docs = field.docs ∧
      mMaybe.name = "maybe_" ++ normIdent field.ident ∧
      (mMaybe.paramType = ParamType.optionOf (ParamType.plain innerType) ∨
        mMaybe.paramType = ParamType.optionOf (ParamType.implInto innerType)) ∧
      mMaybe.docs = [maybeSetterDoc (normIdent field.ident)] := by
  have hok2 : settersForOptionalField ctx field innerType = .ok ms := by
    rw [← hok]
    unfold setterMethods
    rw [hopt]
  unfold settersForOptionalField at hok2
  cases hq : fieldQualifiesForInto ctx field innerType with
  | error e => rw [hq] at hok2; cases hok2
  | ok q =>
    rw [hq] at hok2
    cases q with
    | true =>
      injection hok2 with h
      subst h
      refine ⟨rfl, _, _, rfl, rfl, Or.inr rfl, ?_, ⟨ValueExpr.valueInto, rfl⟩,
        rfl, rfl, Or.inr rfl, rfl⟩
      intro pt
      simp [setterMethod]
    | false =>
      injection hok2 with h
      subst h
      refine ⟨rfl, _, _, rfl, rfl, Or.inl rfl, ?_, ⟨ValueExpr.value, rfl⟩,
        rfl, rfl, Or.inl rfl, rfl⟩
      intro pt
      simp [setterMethod]

/-- **C5.** For an optional field, into-eligibility is decided on the inner
type; when eligible the primary setter converts before wrapping in `Some`
and the `maybe_` setter converts per-element through a map over the option;
when not eligible both store the value verbatim. -/
theorem c5_optional_into_inner (ctx : BuilderGenCtx) (field : Field)
    (innerType : SynType) (ms : List SetterMethodOut)
    (hopt : field.optionalInner = some innerType)
    (hok : setterMethods ctx field = .ok ms) :
    ∃ q, fieldQualifiesForInto ctx field innerType = .ok q ∧
      ∃ mMaybe mPrimary, ms = [mMaybe, mPrimary] ∧
        (q = true →
          mPrimary.paramType = ParamType.implInto innerType ∧
          mPrimary.fieldInit = ValueExpr.someOf ValueExpr.valueInto ∧
          mMaybe.paramType = ParamType.optionOf (ParamType.implInto innerType) ∧
          mMaybe.fieldInit = ValueExpr.mapIntoValue) ∧
        (q = false →
          mPrimary.paramType = ParamType.plain innerType ∧
          mPrimary.fieldInit = ValueExpr.someOf ValueExpr.value ∧
          mMaybe.paramType = ParamType.optionOf (ParamType.plain innerType) ∧
          mMaybe.fieldInit = ValueExpr.value) := by
  have hok2 : settersForOptionalField ctx field innerType = .ok ms := by
    rw [← hok]
    unfold setterMethods
    rw [hopt]
  unfold settersForOptionalField at hok2
  cases hq : fieldQualifiesForInto ctx field innerType with
  | error e => rw [hq] at hok2; cases hok2
  | ok q =>
    rw [hq] at hok2
    cases q with
    | true =>
      injection hok2 with h
      subst h
      refine ⟨true, rfl, _, _, rfl, ?_, ?_⟩
      · intro _
        exact ⟨rfl, rfl, rfl, rfl⟩
      · intro hfalse
        cases hfalse
    | false =>
      injection hok2 with h
      subst h
      refine ⟨false, rfl, _, _, rfl, ?_, ?_⟩
      · intro htrue
        cases htrue
      · intro _
        exact ⟨rfl, rfl, rfl, rfl⟩

/-- **C10.** Every generated setter body rebuilds the private state by
giving the target field's slot the fresh expression and moving every other
field's slot, along with the phantom slot and receiver slot when present,
out of the incoming builder unchanged. -/
theorem c10_setter_frame (ctx : BuilderGenCtx) (field : Field) (i : ℕ)
    (hi : ctx.fields[i]? = some field)
    (hnd : (ctx.fields.map Field.ident).Nodup)
    (ms : List SetterMethodOut) (m : SetterMethodOut)
    (hok : setterMethods ctx field = .ok ms) (hm : m ∈ ms) :
    ∃ fieldSlots,
      m.slots =
        (if ctx.hasPhantomField then [SlotInit.movedPhantom] else []) ++
        (if ctx.hasReceiver then [SlotInit.movedReceiver] else []) ++
        fieldSlots ∧
      fieldSlots.length = ctx.fields.length ∧
      ∀ j (hj : j < ctx.fields.length),
        fieldSlots[j]? =
          some (if j = i then SlotInit.newExpr m.fieldInit
                else SlotInit.movedField ((ctx.fields.get ⟨j, hj⟩).ident)) := by
  obtain ⟨hilen, hfi⟩ := List.getElem?_eq_some.mp hi
  obtain ⟨spec, hspec⟩ := setterMethods_mem_setterMethod ctx field ms m hok hm
  have hinit : m.fieldInit = spec.fieldInit := by rw [hspec]; exact rfl
  have hslots : m.slots =
      (if ctx.hasPhantomField then [SlotInit.movedPhantom] else []) ++
      (if ctx.hasReceiver then [SlotInit.movedReceiver] else []) ++
      (ctx.fields.map fun otherField =>
        if otherField.ident = field.ident then SlotInit.newExpr spec.fieldInit
        else SlotInit.movedField otherField.ident) := by
    rw [hspec]
    exact rfl
  rw [hinit]
  refine ⟨ctx.fields.map fun otherField =>
    if otherField.ident = field.ident then SlotInit.newExpr spec.fieldInit
    else SlotInit.movedField otherField.ident, hslots, by simp, ?_⟩
  intro j hj
  simp only [List.getElem?_map, List.getElem?_eq_getElem hj,
    Option.map_some', Option.some.injEq]
  by_cases hji : j = i
  · subst hji
    have hident : ctx.fields[j].ident = field.ident := by rw [hfi]
    simp [hident]
  · have hident : ¬(ctx.fields[j].ident = field.ident) := by
      rw [← hfi]
      intro heq
      exact hji ((nodup_ident_eq_iff hnd hilen hj).mp
        (by simpa [List.get_eq_getElem] using heq))
    simp [hident, hji, List.get_eq_getElem]

/-! ### Concrete optional-field entity and witnesses for C4, C5, C10 -/

/-- A concrete optional field `age: Option<u32>` (inner type ineligible). -/
def wF3 : Field :=
  ⟨"age", "Age", .path ⟨false, ⟨false, [⟨"Option", true⟩]⟩⟩, some tyU32,
   none, "struct field", []⟩

/-- A concrete optional field `nick: Option<String>` (inner type eligible). -/
def wF4 : Field :=
  ⟨"nick", "Nick", .path ⟨false, ⟨false, [⟨"Option", true⟩]⟩⟩, some tyString,
   none, "struct field", []⟩

/-- A context holding one required and two optional fields. -/
def wCtxOpt : BuilderGenCtx :=
  ⟨"FooBuilder", "FooBuilderState", "FooBuilderPrivateImpl", [], [wF1, wF3, wF4],
   "pub", true, true⟩

/-- The setters generated for `age: Option<u32>` in the mixed context. -/
def wMsOpt : List SetterMethodOut :=
  match setterMethods wCtxOpt wF3 with
  | .ok ms => ms
  | .error _ => []

/-- The setters generated for `nick: Option<String>` in the mixed context. -/
def wMsOptStr : List SetterMethodOut :=
  match setterMethods wCtxOpt wF4 with
  | .ok ms => ms
  | .error _ => []

/-- The first generated setter for `age: Option<u32>`. -/
def wMOpt : SetterMethodOut :=
  wMsOpt.headD ⟨"", ParamType.plain tyU32, ValueExpr.value, [], []⟩

/-- Witness for C4 at the concrete optional field `age: Option<u32>`. -/
theorem c4_witness :
    wMsOpt.length = 2 ∧
    ∃ mMaybe mPrimary, wMsOpt = [mMaybe, mPrimary] ∧
      mPrimary.name = normIdent wF3.ident ∧
      (mPrimary.paramType = ParamType.plain tyU32 ∨
        mPrimary.paramType = ParamType.implInto tyU32) ∧
      (∀ pt, mPrimary.paramType ≠ ParamType.optionOf pt) ∧
      (∃ v, mPrimary.fieldInit = ValueExpr.someOf v) ∧
      mPrimary.docs = wF3.docs ∧
      mMaybe.name = "maybe_" ++ normIdent wF3.ident ∧
      (mMaybe.paramType = ParamType.optionOf (ParamType.plain tyU32) ∨
        mMaybe.paramType = ParamType.optionOf (ParamType.implInto tyU32)) ∧
      mMaybe.docs = [maybeSetterDoc (normIdent wF3.ident)] :=
  c4_optional_field_setter_pair wCtxOpt wF3 tyU32 wMsOpt rfl rfl

/-- Witness for C5 at the concrete optional field `nick: Option<String>`. -/
theorem c5_witness :
    ∃ q, fieldQualifiesForInto wCtxOpt wF4 tyString = .ok q ∧
      ∃ mMaybe mPrimary, wMsOptStr = [mMaybe, mPrimary] ∧
        (q = true →
          mPrimary.paramType = ParamType.implInto tyString ∧
          mPrimary.fieldInit = ValueExpr.someOf ValueExpr.valueInto ∧
          mMaybe.paramType = ParamType.optionOf (ParamType.implInto tyString) ∧
          mMaybe.fieldInit = ValueExpr.mapIntoValue) ∧
        (q = false →
          mPrimary.paramType = ParamType.plain tyString ∧
          mPrimary.fieldInit = ValueExpr.someOf ValueExpr.value ∧
          mMaybe.paramType = ParamType.optionOf (ParamType.plain tyString) ∧
          mMaybe.fieldInit = ValueExpr.value) :=
  c5_optional_into_inner wCtxOpt wF4 tyString wMsOptStr rfl rfl

/-- Witness for C10 at the first setter of `age: Option<u32>` in the mixed
context (which has both a receiver and a phantom slot). -/
theorem c10_witness :
    ∃ fieldSlots,
      wMOpt.slots =
        (if wCtxOpt.hasPhantomField then [SlotInit.movedPhantom] else []) ++
        (if wCtxOpt.hasReceiver then [SlotInit.movedReceiver] else []) ++
        fieldSlots ∧
      fieldSlots.length = wCtxOpt.fields.length ∧
      ∀ j (hj : j < wCtxOpt.fields.length),
        fieldSlots[j]? =
          some (if j = 1 then SlotInit.newExpr wMOpt.fieldInit
                else SlotInit.movedField ((wCtxOpt.fields.get ⟨j, hj⟩).ident)) :=
  c10_setter_frame wCtxOpt wF3 1 (by decide) (by decide) wMsOpt wMOpt rfl
    (by exact List.Mem.head _)

/-! ### The impl-block adaptation pipeline (`item_impl.rs`) -/

/-- A method inside an impl block, as the pipeline observes it: attribute
paths (by identifier), the defaultness qualifier, visibility, and opaque
signature/body token blobs. -/
structure ImplItemFn where
  attrs : List String
  defaultness : Bool
  vis : String
  sig : String
  body : String
deriving DecidableEq, Repr

/-- An item of an impl block: a method, or any other associated item. -/
inductive ImplItem where
  | fn (f : ImplItemFn)
  | nonFn (tag : String)
deriving DecidableEq, Repr

/-- An impl block: the optional implemented trait path, the self type and
generics header blobs, and the item list. -/
structure ItemImpl where
  traitPath : Option String
  selfTy : String
  generics : String
  items : List ImplItem
deriving DecidableEq, Repr

/-- `fn_item.attrs.iter().any(|attr| attr.path().is_ident("builder"))`. -/
def ImplItemFn.hasBuilderAttr (f : ImplItemFn) : Bool :=
  f.attrs.any fun attr => attr == "builder"

/-- The `partition_map` step of `generate`: items without the builder marker
(methods and non-methods alike) go left in order, marked methods go right
in order. -/
def partitionItems : List ImplItem → List ImplItem × List ImplItemFn
  | [] => ([], [])
  | item :: rest =>
    let pr := partitionItems rest
    match item with
    | .fn fnItem =>
      if fnItem.hasBuilderAttr then (pr.1, fnItem :: pr.2)
      else (.fn fnItem :: pr.1, pr.2)
    | .nonFn tag => (.nonFn tag :: pr.1, pr.2)

/-- A free-standing function item, the result of converting an impl item
method. -/
structure ItemFn where
  attrs : List String
  vis : String
  sig : String
  body : String
deriving DecidableEq, Repr

/-- `impl_item_fn_into_fn_item`: rejects defaulted methods and otherwise
drops the defaultness slot. -/
def implItemFnIntoFnItem (func : ImplItemFn) : Except Diag ItemFn :=
  if func.defaultness then .error .defaultFnsUnsupported
  else .ok ⟨func.attrs, func.vis, func.sig, func.body⟩

/-- Modelled from the spec: the normalization visitors
(`NormalizeLifetimes`, `NormalizeImplTraits`, `NormalizeSelfTy`, not under
src/) rewrite type syntax inside signatures, bodies and the impl header;
they are abstracted as opaque string transforms. Modelling them per slot
captures that they preserve item count, order, attributes and defaultness. -/
structure NormPasses where
  liSig : String → String
  liBody : String → String
  liSelfTy : String → String
  liGenerics : String → String
  selfSig : String → String
  selfBody : String → String

/-- The lifetimes-and-impl-traits normalization of one method. -/
def normalizeFnLi (np : NormPasses) (f : ImplItemFn) : ImplItemFn :=
  { f with sig := np.liSig f.sig, body := np.liBody f.body }

/-- The self-type normalization of one method. -/
def normalizeFnSelf (np : NormPasses) (f : ImplItemFn) : ImplItemFn :=
  { f with sig := np.selfSig f.sig, body := np.selfBody f.body }

/-- The per-method builder-generation output consumed by `generate`: the
start method and the auxiliary items emitted outside the impl block. -/
structure FnOutput where
  startFunc : ItemFn
  otherItems : String
deriving DecidableEq, Repr

/-- Modelled from the spec: the per-method generation collaborator
(`darling` meta decoding, `FuncInputCtx::adapted_func` and
`into_builder_gen_ctx().output()`, not under src/), taking the original and
normalized forms of a method and returning the adapted method plus the
builder output, or a diagnostic. -/
abbrev GenFn := ItemFn → ItemFn → Except Diag (ItemFn × FnOutput)

/-- The per-pair body of the generation loop: convert the normalized and
then the original method (each rejecting defaultness), then run the
generation collaborator. -/
def processPair (gen : GenFn) (origItem normItem : ImplItemFn) :
    Except Diag (ItemFn × FnOutput) :=
  match implItemFnIntoFnItem normItem with
  | .error e => .error e
  | .ok normFunc =>
    match implItemFnIntoFnItem origItem with
    | .error e => .error e
    | .ok origFunc => gen origFunc normFunc

/-- `Iterator::try_collect` over the generation loop: sequential, stopping
at the first failure. -/
def collectResults {α β : Type} (proc : α → Except Diag β) :
    List α → Except Diag (List β)
  | [] => .ok []
  | x :: rest =>
    match proc x with
    | .error e => .error e
    | .ok y =>
      match collectResults proc rest with
      | .error e => .error e
      | .ok ys => .ok (y :: ys)

/-- `syn::parse_quote!` splicing a generated free function back into the
impl block as a (non-defaulted) method item. -/
def fnItemToImplItem (f : ItemFn) : ImplItem :=
  .fn ⟨f.attrs, false, f.vis, f.sig, f.body⟩

/-- The reassembled output of `generate`: the auxiliary items emitted
alongside (before) the impl block, then the impl block itself. -/
structure GeneratedOutput where
  auxItems : List String
  implBlock : ItemImpl
deriving DecidableEq, Repr

/-- `builder::item_impl::generate`: rejects trait impls, partitions marked
methods, fails fast when none is marked, runs the per-method generation on
positionally zipped (original, normalized) pairs, and reassembles the
selfful impl block with the untouched non-builder items followed by each
start method and adapted method. -/
def generate (np : NormPasses) (gen : GenFn) (origImplBlock : ItemImpl) :
    Except Diag GeneratedOutput :=
  match origImplBlock.traitPath with
  | some traitPath => .error (.traitImplUnsupported traitPath)
  | none =>
    if ((partitionItems origImplBlock.items).2).isEmpty then
      .error .noBuilderFns
    else
      match collectResults (fun p => processPair gen p.1 p.2)
          (((partitionItems origImplBlock.items).2).zip
            ((((partitionItems origImplBlock.items).2).map
              (normalizeFnLi np)).map (normalizeFnSelf np))) with
      | .error e => .error e
      | .ok outputs =>
        .ok
          { auxItems := outputs.map fun out => out.2.otherItems
            implBlock :=
              { traitPath := none
                selfTy := np.liSelfTy origImplBlock.selfTy
                generics := np.liGenerics origImplBlock.generics
                items :=
                  (partitionItems origImplBlock.items).1 ++
                    outputs.flatMap fun out =>
                      [fnItemToImplItem out.2.startFunc,
                       fnItemToImplItem out.1] } }

/-! ### Helper lemmas about the pipeline -/

theorem partition_right_nil {items : List ImplItem}
    (h : ∀ f, ImplItem.fn f ∈ items → f.hasBuilderAttr = false) :
    (partitionItems items).2 = [] := by
  induction items with
  | nil => rfl
  | cons item rest ih =>
    have hrest : ∀ f, ImplItem.fn f ∈ rest → f.hasBuilderAttr = false :=
      fun f hf => h f (List.Mem.tail _ hf)
    cases item with
    | fn fnItem =>
      have hattr := h fnItem (List.Mem.head _)
      simp [partitionItems, hattr, ih hrest]
    | nonFn tag =>
      simp [partitionItems, ih hrest]

theorem mem_partition_right {items : List ImplItem} {f : ImplItemFn}
    (hmem : ImplItem.fn f ∈ items) (hattr : f.hasBuilderAttr = true) :
    f ∈ (partitionItems items).2 := by
  induction items with
  | nil => cases hmem
  | cons item rest ih =>
    cases hmem with
    | head => simp [partitionItems, hattr]
    | tail _ hmem2 =>
      cases item with
      | fn fnItem =>
        by_cases hb : fnItem.hasBuilderAttr = true
        · simp only [partitionItems, hb, if_true]
          exact List.Mem.tail _ (ih hmem2)
        · simp only [partitionItems, hb, if_false]
          exact ih hmem2
      | nonFn tag =>
        simp only [partitionItems]
        exact ih hmem2

theorem mem_partition_left {items : List ImplItem} {item : ImplItem}
    (hmem : item ∈ (partitionItems items).1) : item ∈ items := by
  induction items with
  | nil => cases hmem
  | cons hd rest ih =>
    cases hd with
    | fn fnItem =>
      by_cases hb : fnItem.hasBuilderAttr = true
      · simp only [partitionItems, hb, if_true] at hmem
        exact List.Mem.tail _ (ih hmem)
      · simp only [partitionItems, hb, if_false] at hmem
        cases hmem with
        | head => exact List.Mem.head _
        | tail _ h2 => exact List.Mem.tail _ (ih h2)
    | nonFn tag =>
      simp only [partitionItems] at hmem
      cases hmem with
      | head => exact List.Mem.head _
      | tail _ h2 => exact List.Mem.tail _ (ih h2)

theorem mem_zip_map_map {α : Type} (g1 g2 : α → α) {l : List α} {x : α}
    (hx : x ∈ l) :
    (x, g2 (g1 x)) ∈ l.zip ((l.map g1).map g2) := by
  induction l with
  | nil => cases hx
  | cons a t ih =>
    cases hx with
    | head => exact List.Mem.head _
    | tail _ h2 => exact List.Mem.tail _ (ih h2)

theorem collectResults_ok_mem {α β : Type} {proc : α → Except Diag β}
    {l : List α} {res : List β} (h : collectResults proc l = .ok res) :
    ∀ x ∈ l, ∃ y, proc x = .ok y := by
  induction l generalizing res with
  | nil =>
    intro x hx
    cases hx
  | cons a t ih =>
    intro x hx
    unfold collectResults at h
    cases hp : proc a with
    | error e => rw [hp] at h; cases h
    | ok y =>
      rw [hp] at h
      cases hrest : collectResults proc t with
      | error e => rw [hrest] at h; cases h
      | ok ys =>
        cases hx with
        | head => exact ⟨y, hp⟩
        | tail _ h2 => exact ih hrest x h2

/-! ### Claims C6, C7 and C8: the adaptation pipeline -/

/-- Counterexample to C6 as stated: an impl block that implements a trait
and carries no marked method fails with the trait-unsupported diagnostic,
not with the nothing-to-do diagnostic. -/
def cBlockTrait : ItemImpl := ⟨some "Default", "Foo", "", []⟩

/-- Identity normalization passes, for concrete runs of the pipeline. -/
def idPasses : NormPasses := ⟨id, id, id, id, id, id⟩

/-- A trivial generation collaborator for concrete runs: the adapted method
is the original one, the start method is the normalized one. -/
def trivialGen : GenFn := fun origFunc normFunc =>
  .ok (origFunc, ⟨normFunc, "aux items"⟩)

/-- **C6 (counterexample).** The claim says a block with no marked method
always fails with the nothing-to-do diagnostic; on a trait impl block with
no marked method the pipeline fails with the trait-unsupported diagnostic
instead. -/
theorem c6_counterexample :
    (∀ f, ImplItem.fn f ∈ cBlockTrait.items → f.hasBuilderAttr = false) ∧
    generate idPasses trivialGen cBlockTrait =
      .error (Diag.traitImplUnsupported "Default") ∧
    Diag.traitImplUnsupported "Default" ≠ Diag.noBuilderFns := by
  refine ⟨?_, rfl, by decide⟩
  intro f hf
  simp [cBlockTrait] at hf

/-- **C6 (amended).** For an impl block that does not implement a trait, if
no method carries the builder marker the pipeline fails with the
nothing-to-do diagnostic; and with no marked method it never succeeds,
whether or not a trait is implemented. -/
theorem c6_no_marked_methods (np : NormPasses) (gen : GenFn)
    (block : ItemImpl)
    (hnone : ∀ f, ImplItem.fn f ∈ block.items → f.hasBuilderAttr = false) :
    (block.traitPath = none →
      generate np gen block = .error Diag.noBuilderFns) ∧
    (∀ out, generate np gen block ≠ .ok out) := by
  have hnil : (partitionItems block.items).2 = [] := partition_right_nil hnone
  constructor
  · intro ht
    unfold generate
    rw [ht, hnil]
    exact rfl
  · intro out hok
    unfold generate at hok
    cases ht : block.traitPath with
    | some tp => rw [ht] at hok; cases hok
    | none =>
      rw [ht, hnil] at hok
      simp at hok

/-- Witness for the amended C6 at a concrete marker-free impl block. -/
theorem c6_witness :
    generate idPasses trivialGen ⟨none, "Foo", "", [.nonFn "const"]⟩ =
      .error Diag.noBuilderFns := by
  have h := c6_no_marked_methods idPasses trivialGen
    ⟨none, "Foo", "", [.nonFn "const"]⟩ ?hnone
  · exact h.1 rfl
  case hnone =>
    intro f hf
    simp at hf

/-- **C7.** The pipeline rejects every impl block implementing a named
trait, and never succeeds on a block containing a marked method with a
defaultness qualifier. -/
theorem c7_trait_and_default_rejection (np : NormPasses) (gen : GenFn)
    (block : ItemImpl) :
    (∀ tp, block.traitPath = some tp →
      generate np gen block = .error (Diag.traitImplUnsupported tp)) ∧
    (∀ f, ImplItem.fn f ∈ block.items → f.hasBuilderAttr = true →
      f.defaultness = true →
      ∀ out, generate np gen block ≠ .ok out) := by
  constructor
  · intro tp ht
    unfold generate
    rw [ht]
  · intro f hmem hattr hdef out hok
    unfold generate at hok
    cases ht : block.traitPath with
    | some tp => rw [ht] at hok; cases hok
    | none =>
      rw [ht] at hok
      have hmemR : f ∈ (partitionItems block.items).2 :=
        mem_partition_right hmem hattr
      have hemp : ((partitionItems block.items).2).isEmpty = false := by
        cases hpr : (partitionItems block.items).2 with
        | nil => rw [hpr] at hmemR; cases hmemR
        | cons a t => rfl
      rw [hemp] at hok
      simp only [Bool.false_eq_true, if_false] at hok
      cases hcoll : collectResults (fun p => processPair gen p.1 p.2)
          (((partitionItems block.items).2).zip
            ((((partitionItems block.items).2).map
              (normalizeFnLi np)).map (normalizeFnSelf np))) with
      | error e => rw [hcoll] at hok; cases hok
      | ok outputs =>
        have hpair := mem_zip_map_map (normalizeFnLi np) (normalizeFnSelf np)
          hmemR
        obtain ⟨y, hy⟩ := collectResults_ok_mem hcoll _ hpair
        dsimp only at hy
        unfold processPair at hy
        have hconv : implItemFnIntoFnItem
            (normalizeFnSelf np (normalizeFnLi np f)) =
            .error Diag.defaultFnsUnsupported := by
          unfold implItemFnIntoFnItem normalizeFnSelf normalizeFnLi
          simp [hdef]
        rw [hconv] at hy
        cases hy

/-- A concrete marked method carrying a defaultness qualifier. -/
def cFnDefaulted : ImplItemFn := ⟨["builder"], true, "pub", "fn new()", "b1"⟩

/-- Witness for C7: a concrete trait impl block is rejected with the trait
diagnostic, and a concrete block with a marked defaulted method never
succeeds. -/
theorem c7_witness :
    generate idPasses trivialGen cBlockTrait =
      .error (Diag.traitImplUnsupported "Default") ∧
    ∀ out, generate idPasses trivialGen
      ⟨none, "Foo", "", [.fn cFnDefaulted]⟩ ≠ .ok out := by
  constructor
  · exact (c7_trait_and_default_rejection idPasses trivialGen cBlockTrait).1
      "Default" rfl
  · intro out
    exact (c7_trait_and_default_rejection idPasses trivialGen
      ⟨none, "Foo", "", [.fn cFnDefaulted]⟩).2 cFnDefaulted
      (List.Mem.head _) rfl rfl out

/-- **C8.** A successful run reassembles the output as the auxiliary items
alongside (before) the impl block, whose items are the untouched
non-builder original items in order, followed by, per marked method in
order, its generated start method and then its adapted original method. -/
theorem c8_reassembly (np : NormPasses) (gen : GenFn) (block : ItemImpl)
    (out : GeneratedOutput) (hok : generate np gen block = .ok out) :
    ∃ results,
      collectResults (fun p => processPair gen p.1 p.2)
        (((partitionItems block.items).2).zip
          ((((partitionItems block.items).2).map
            (normalizeFnLi np)).map (normalizeFnSelf np))) = .ok results ∧
      out.auxItems = results.map (fun r => r.2.otherItems) ∧
      out.implBlock.items =
        (partitionItems block.items).1 ++
          results.flatMap (fun r =>
            [fnItemToImplItem r.2.startFunc, fnItemToImplItem r.1]) ∧
      (∀ item ∈ (partitionItems block.items).1, item ∈ block.items) := by
  unfold generate at hok
  cases ht : block.traitPath with
  | some tp => rw [ht] at hok; cases hok
  | none =>
    rw [ht] at hok
    by_cases hemp : ((partitionItems block.items).2).isEmpty = true
    · rw [if_pos hemp] at hok
      cases hok
    · rw [if_neg hemp] at hok
      cases hcoll : collectResults (fun p => processPair gen p.1 p.2)
          (((partitionItems block.items).2).zip
            ((((partitionItems block.items).2).map
              (normalizeFnLi np)).map (normalizeFnSelf np))) with
      | error e => rw [hcoll] at hok; cases hok
      | ok outputs =>
        rw [hcoll] at hok
        injection hok with h
        subst h
        exact ⟨outputs, rfl, rfl, rfl, fun item hitem => mem_partition_left hitem⟩

/-- A concrete unmarked method and a concrete marked method. -/
def cFnPlain : ImplItemFn := ⟨[], false, "pub", "fn helper()", "b0"⟩

/-- A concrete marked, non-defaulted method. -/
def cFnMarked : ImplItemFn := ⟨["builder"], false, "pub", "fn new()", "b2"⟩

/-- The concrete mixed impl block used by the C8 witness. -/
def cBlockMixed : ItemImpl :=
  ⟨none, "Foo", "<T>", [.fn cFnPlain, .fn cFnMarked, .nonFn "const"]⟩

/-- The output of the pipeline on the concrete mixed block. -/
def cOutMixed : GeneratedOutput :=
  match generate idPasses trivialGen cBlockMixed with
  | .ok out => out
  | .error _ => ⟨[], ⟨none, "", "", []⟩⟩

/-- Witness for C8 at the concrete mixed impl block. -/
theorem c8_witness :
    ∃ results,
      collectResults (fun p => processPair trivialGen p.1 p.2)
        (((partitionItems cBlockMixed.items).2).zip
          ((((partitionItems cBlockMixed.items).2).map
            (normalizeFnLi idPasses)).map (normalizeFnSelf idPasses))) =
        .ok results ∧
      cOutMixed.auxItems = results.map (fun r => r.2.otherItems) ∧
      cOutMixed.implBlock.items =
        (partitionItems cBlockMixed.items).1 ++
          results.flatMap (fun r =>
            [fnItemToImplItem r.2.startFunc, fnItemToImplItem r.1]) ∧
      (∀ item ∈ (partitionItems cBlockMixed.items).1,
        item ∈ cBlockMixed.items) :=
  c8_reassembly idPasses trivialGen cBlockMixed cOutMixed rfl

end Bon
